import Mathlib

/-!
Verification of the mmtf-rs codec engine against its specification.

The Rust sources are shallowly embedded:
* machine integers (`i8`, `i16`, `i32`, `u32`, `usize`) are `Int`/`Nat`,
  with two's-complement wrap-around made explicit (`wrap32`) at every
  arithmetic operation that Rust performs on `i32`;
* byte buffers are `List Nat` (each element a byte value);
* fallible Rust code (`Result<_, EncodeError>` that may additionally
  panic through `assert!`, `unwrap`, or out-of-bounds indexing) is
  embedded as the three-way outcome type `Res`;
* `f32` values are kept symbolic (`F32`): the codec engine either
  transports a 4-byte big-endian bit pattern unchanged, or forms the
  quotient `value / factor`; no claim below needs IEEE-754 arithmetic
  beyond distinguishing those two kinds of results;
* Rust `while` loops are embedded as fuel recursion, with the fuel a
  proven upper bound on the number of iterations.
-/

namespace Mmtf

/-- Modelled from the spec: the `EncodeError` enum itself is declared in a
revision of `encode.rs` that is not part of the sources; its constructors
and `String` payloads are reconstructed from every use site
(`EncodeError::Header(err)`, `EncodeError::Codec(..)`,
`EncodeError::Encoding(..)` in `decode.rs`/`encoding.rs`, plus the
`From<io::Error>` conversion used by `?`). -/
inductive EncodeError where
  | Header (msg : String)
  | Codec (msg : String)
  | Encoding (msg : String)
  | IoError (msg : String)
deriving DecidableEq

/-- Outcome of running a fallible Rust function: the process aborted
(`panicked`, from a failed `assert!`, a failed `unwrap`, or an
out-of-bounds index), or the function returned `Err`, or it returned
`Ok`. -/
inductive Res (α : Type) where
  | panicked (msg : String)
  | fail (e : EncodeError)
  | ok (a : α)
deriving DecidableEq

namespace Res

/-- Sequencing of fallible computations; mirrors Rust `?` / `and_then`. -/
def bind {α β : Type} : Res α → (α → Res β) → Res β
  | .panicked msg, _ => .panicked msg
  | .fail e, _ => .fail e
  | .ok a, f => f a

/-- Mapping over the success value. -/
def map {α β : Type} (f : α → β) : Res α → Res β
  | .panicked msg => .panicked msg
  | .fail e => .fail e
  | .ok a => .ok (f a)

/-- The computation returned `Err` (it neither succeeded nor aborted). -/
def isFail {α : Type} : Res α → Bool
  | .fail _ => true
  | _ => false

theorem bind_ok {α β : Type} (a : α) (f : α → Res β) : (Res.ok a).bind f = f a := rfl

theorem bind_fail {α β : Type} (e : EncodeError) (f : α → Res β) :
    (Res.fail e).bind f = .fail e := rfl

theorem map_ok {α β : Type} (g : α → β) (a : α) : (Res.ok a).map g = .ok (g a) := rfl

end Res

/-! ## Machine-integer helpers -/

/-- Two's-complement wrap-around of an `Int` into the `i32` range;
this is the semantics of Rust release-mode `i32` arithmetic. -/
def wrap32 (z : Int) : Int := (z + 2147483648) % 4294967296 - 2147483648

/-- The value is representable as an `i32`. -/
abbrev isI32 (z : Int) : Prop := -2147483648 ≤ z ∧ z < 2147483648

/-- Reassemble a big-endian 32-bit unsigned value from four bytes. -/
def beU32 (b0 b1 b2 b3 : Nat) : Nat := ((b0 * 256 + b1) * 256 + b2) * 256 + b3

/-- Reassemble a little-endian 32-bit unsigned value from four bytes
(`read_u32::<LittleEndian>` in `binary_decoder.rs`). -/
def leU32 (b0 b1 b2 b3 : Nat) : Nat := ((b3 * 256 + b2) * 256 + b1) * 256 + b0

/-- Interpret a 32-bit unsigned value as a two's-complement `i32`. -/
def toSigned32 (u : Nat) : Int :=
  if u < 2147483648 then (u : Int) else (u : Int) - 4294967296

/-- Interpret a 16-bit unsigned value as a two's-complement `i16`. -/
def toSigned16 (u : Nat) : Int :=
  if u < 32768 then (u : Int) else (u : Int) - 65536

/-- Interpret a byte as a two's-complement `i8`. -/
def toSigned8 (u : Nat) : Int :=
  if u < 128 then (u : Int) else (u : Int) - 256

/-- Rust `NumCast::from::<usize>(x).unwrap()` on a signed value:
succeeds exactly on non-negative values. -/
def castUsize (z : Int) : Option Nat :=
  if 0 ≤ z then some z.toNat else none

/-- Rust `NumCast::from::<i16>(x).unwrap()` on an `i32` value:
succeeds exactly on values in the `i16` range. -/
def castI16 (z : Int) : Option Int :=
  if -32768 ≤ z ∧ z ≤ 32767 then some z else none

/-- Rust `x as u32` on an `i32` value: two's-complement reinterpretation. -/
def i32AsU32 (z : Int) : Nat :=
  if 0 ≤ z then z.toNat else (z + 4294967296).toNat

/-- Rust `char::from_u32(u).is_some()`: `u` is a Unicode scalar value. -/
def validScalar (u : Nat) : Bool :=
  decide (u < 55296) || (decide (57343 < u) && decide (u ≤ 1114111))

/-! ## Primitive transforms (`encoding.rs`) -/

/-- A value of Rust type `f32` as the codec engine produces it, kept
symbolic: either the IEEE-754 single whose big-endian bytes carried the
given 32-bit pattern (`read_f32::<BigEndian>`), or the quotient
`(num as f32) / (den as f32)` formed by `IntegerEncoding::decode`. -/
inductive F32 where
  | ofBits (bits : Nat)
  | quotient (num den : Int)
deriving DecidableEq

/-- The structure `HeaderLayout { codec, length, parameter }` built by
`Decoder::header` in `decode.rs` (its declaration lives in the missing
revision of `encode.rs`; the three `i32` fields are visible at the
construction site). -/
structure HeaderLayout where
  codec : Int
  length : Int
  parameter : Int
deriving DecidableEq

/-- The tagged result union returned by `Decoder::apply`
(`StrategyDataTypes` in `encode.rs`); `char`s are carried as their
Unicode scalar values and `String`s as their UTF-8 bytes. -/
inductive StrategyDataTypes where
  | VecFloat32 (v : List F32)
  | VecInt8 (v : List Int)
  | VecInt16 (v : List Int)
  | VecInt32 (v : List Int)
  | VecString (v : List (List Nat))
  | VecChar (v : List Nat)
deriving DecidableEq

namespace RunLength

/-- The loop of `RunLength::decode` over `values.chunks(2)`: each chunk
gives `value`/`repeat`, the repeat count is cast to `usize` by
`NumCast::from(..).unwrap()` (a panic when negative), and `value` is
pushed `repeat` times.  A trailing chunk of one element would read
`v[1]` out of bounds. -/
def decodeAux : List Int → Res (List Int)
  | [] => .ok []
  | [_] => .panicked "index out of bounds: chunk of length 1"
  | value :: rep :: rest =>
    match castUsize rep with
    | none => .panicked "NumCast::from(repeat).unwrap()"
    | some chunks => (decodeAux rest).map (fun tail => List.replicate chunks value ++ tail)

/-- `RunLength::decode` (`encoding.rs` lines 35-55).  The guard is the
source's `if !values.len() % 2 == 0`, which in Rust is
`((!values.len()) % 2) == 0`: a bitwise NOT on `usize` followed by `% 2`,
true exactly for odd lengths. -/
def decode (values : List Int) : Res (List Int) :=
  if (18446744073709551615 - values.length) % 2 = 0 then
    .fail (.Encoding "Run Length error")
  else
    decodeAux values

end RunLength

namespace Delta

/-- The loop of `Delta::decode`: each output is the previously pushed
output plus the current input, with `i32` addition. -/
def decodeAux : Int → List Int → List Int
  | _, [] => []
  | position, value :: rest =>
    wrap32 (position + value) :: decodeAux (wrap32 (position + value)) rest

/-- `Delta::decode` (`encoding.rs` lines 99-110).  The source reads
`bytes[0]` unconditionally, an out-of-bounds panic on empty input. -/
def decode : List Int → Res (List Int)
  | [] => .panicked "index out of bounds: bytes[0]"
  | b :: rest => .ok (b :: decodeAux b rest)

/-- The loop of `Delta::encode`: pushes `value - position` (`i32`
subtraction) and sets `position = value`. -/
def encodeAux : Int → List Int → List Int
  | _, [] => []
  | position, value :: rest => wrap32 (value - position) :: encodeAux value rest

/-- `Delta::encode` (`encoding.rs` lines 113-132). -/
def encode (bytes : List Int) : Res (List Int) :=
  if bytes.length ≤ 1 then
    .fail (.Encoding ("Delta::encode() error: bytes length should be greater than "
      ++ toString bytes.length))
  else
    match bytes with
    | [] => .panicked "unreachable"
    | b :: rest => .ok (b :: encodeAux b rest)

end Delta

namespace IntegerEncoding

/-- `IntegerEncoding::decode` (`encoding.rs` lines 160-172): every value
is divided by the factor in `f32` arithmetic — with no check on the
factor — and the call unconditionally succeeds. -/
def decode (values : List Int) (factor : Int) : Res (List F32) :=
  .ok (values.map (fun x => .quotient x factor))

end IntegerEncoding

namespace RecursiveIndexing

/-- The accumulator loop of `RecursiveIndexing::decode`: an item equal
to `i16::MAX` or `i16::MIN` is added to the accumulator (`i32`
addition) without emitting; any other item is added and the accumulator
is emitted, then reset to 0.  The bounds are those of `i16` whatever
the input width. -/
def decodeAux : List Int → Int → List Int
  | [], _ => []
  | item :: rest, acc =>
    if item = 32767 ∨ item = -32768 then
      decodeAux rest (wrap32 (acc + item))
    else
      wrap32 (acc + item) :: decodeAux rest 0

/-- `RecursiveIndexing::decode` (`encoding.rs` lines 224-246). -/
def decode (bytes : List Int) : Res (List Int) :=
  .ok (decodeAux bytes 0)

/-- The `while num >= max` loop of `RecursiveIndexing::encode`, as fuel
recursion: returns the pushed sentinels and the final remainder.  The
fuel passed by `encodeOne` is an upper bound on the iteration count,
proven in the theorem for claim C9. -/
def encodePosAux : Nat → Int → List Int × Int
  | 0, num => ([], num)
  | fuel + 1, num =>
    if 32767 ≤ num then
      (32767 :: (encodePosAux fuel (wrap32 (num - 32767))).1,
        (encodePosAux fuel (wrap32 (num - 32767))).2)
    else ([], num)

/-- The `while num <= min` loop of `RecursiveIndexing::encode`
(`num += min.abs()`), as fuel recursion. -/
def encodeNegAux : Nat → Int → List Int × Int
  | 0, num => ([], num)
  | fuel + 1, num =>
    if num ≤ -32768 then
      (-32768 :: (encodeNegAux fuel (wrap32 (num + 32768))).1,
        (encodeNegAux fuel (wrap32 (num + 32768))).2)
    else ([], num)

/-- One iteration of the outer `for num in bytes` loop of
`RecursiveIndexing::encode`: run the sentinel loop for the sign of
`num`, then push the remainder through
`NumCast::from::<i16>(num).unwrap()` (a panic outside the `i16`
range). -/
def encodeOne (num : Int) : Res (List Int) :=
  if 0 ≤ num then
    match castI16 (encodePosAux num.toNat num).2 with
    | none => .panicked "NumCast::from(num).unwrap()"
    | some v => .ok ((encodePosAux num.toNat num).1 ++ [v])
  else
    match castI16 (encodeNegAux num.natAbs num).2 with
    | none => .panicked "NumCast::from(num).unwrap()"
    | some v => .ok ((encodeNegAux num.natAbs num).1 ++ [v])

/-- `RecursiveIndexing::encode` (`encoding.rs` lines 249-271). -/
def encode : List Int → Res (List Int)
  | [] => .ok []
  | num :: rest => (encodeOne num).bind fun l => (encode rest).map fun tail => l ++ tail

end RecursiveIndexing

/-! ## Byte interpreters (`binary_decoder.rs`) -/

namespace Interpret

/-- Rust `0x80 ≤ b < 0xC0`: a UTF-8 continuation byte. -/
def isCont (b : Nat) : Bool := decide (128 ≤ b) && decide (b < 192)

/-- Admissible second byte of a three-byte UTF-8 sequence headed by `b`. -/
def followerE (b c1 : Nat) : Bool :=
  if b = 224 then decide (160 ≤ c1) && decide (c1 < 192)
  else if b = 237 then decide (128 ≤ c1) && decide (c1 < 160)
  else isCont c1

/-- Admissible second byte of a four-byte UTF-8 sequence headed by `b`. -/
def followerF (b c1 : Nat) : Bool :=
  if b = 240 then decide (144 ≤ c1) && decide (c1 < 192)
  else if b = 244 then decide (128 ≤ c1) && decide (c1 < 144)
  else isCont c1

/-- Validity of a byte sequence as UTF-8, as `str::from_utf8` checks it
(rejecting overlong forms, surrogates and values above U+10FFFF). -/
def utf8Valid : List Nat → Bool
  | [] => true
  | b :: rest =>
    if b < 128 then utf8Valid rest
    else if b < 194 then false
    else if b < 224 then
      match rest with
      | c1 :: rest1 => isCont c1 && utf8Valid rest1
      | [] => false
    else if b < 240 then
      match rest with
      | c1 :: c2 :: rest2 => followerE b c1 && isCont c2 && utf8Valid rest2
      | _ => false
    else if b < 245 then
      match rest with
      | c1 :: c2 :: c3 :: rest3 => followerF b c1 && isCont c2 && isCont c3 && utf8Valid rest3
      | _ => false
    else false

/-- Strip the NUL characters that `trim_matches('\u{0}')` removes from
both ends of a 4-byte chunk (U+0000 is the single byte `0x00` in
UTF-8, and no other scalar's encoding contains a `0x00` byte). -/
def trimNul (s : List Nat) : List Nat :=
  ((s.dropWhile (· = 0)).reverse.dropWhile (· = 0)).reverse

/-- The read loop of `Interpret<&[u8]> for Vec<f32>`: consume big-endian
4-byte groups. -/
def f32Aux : List Nat → List F32
  | b0 :: b1 :: b2 :: b3 :: rest => .ofBits (beU32 b0 b1 b2 b3) :: f32Aux rest
  | _ => []

/-- `Interpret<&[u8]> for Vec<f32>` (`binary_decoder.rs` lines 83-98):
`assert!(length % 4 == 0)` aborts on misaligned input. -/
def bytesToF32 (values : List Nat) : Res (List F32) :=
  if values.length % 4 = 0 then .ok (f32Aux values)
  else .panicked "assertion failed: length % 4 == 0"

/-- The read loop of `Interpret<&[u8]> for Vec<i32>`. -/
def i32Aux : List Nat → List Int
  | b0 :: b1 :: b2 :: b3 :: rest => toSigned32 (beU32 b0 b1 b2 b3) :: i32Aux rest
  | _ => []

/-- `Interpret<&[u8]> for Vec<i32>` (`binary_decoder.rs` lines 100-115). -/
def bytesToI32 (values : List Nat) : Res (List Int) :=
  if values.length % 4 = 0 then .ok (i32Aux values)
  else .panicked "assertion failed: length % 4 == 0"

/-- The read loop of `Interpret<&[u8]> for Vec<i16>`. -/
def i16Aux : List Nat → List Int
  | b0 :: b1 :: rest => toSigned16 (b0 * 256 + b1) :: i16Aux rest
  | _ => []

/-- `Interpret<&[u8]> for Vec<i16>` (`binary_decoder.rs` lines 133-147). -/
def bytesToI16 (values : List Nat) : Res (List Int) :=
  if values.length % 2 = 0 then .ok (i16Aux values)
  else .panicked "assertion failed: length % 2 == 0"

/-- `Interpret<&[u8]> for Vec<i8>` (`binary_decoder.rs` lines 117-131):
one element per byte, no length constraint, never fails. -/
def bytesToI8 (values : List Nat) : Res (List Int) :=
  .ok (values.map toSigned8)

/-- The read loop of `Interpret<&[u8]> for Vec<char>`: little-endian
4-byte groups fed to `from_u32(c).unwrap()`, which panics on an
invalid Unicode scalar value. -/
def charAux : List Nat → Res (List Nat)
  | b0 :: b1 :: b2 :: b3 :: rest =>
    if validScalar (leU32 b0 b1 b2 b3) then
      (charAux rest).map (fun tail => leU32 b0 b1 b2 b3 :: tail)
    else .panicked "from_u32(c).unwrap()"
  | _ => .ok []

/-- `Interpret<&[u8]> for Vec<char>` (`binary_decoder.rs` lines 34-50). -/
def bytesToChar (values : List Nat) : Res (List Nat) :=
  if values.length % 4 = 0 then charAux values
  else .panicked "assertion failed: length % 4 == 0"

/-- `Interpret<&[i32]> for Vec<char>` (`binary_decoder.rs` lines 52-64):
each `i32` is reinterpreted `as u32` and fed to
`from_u32(..).unwrap()`, which panics on an invalid scalar value. -/
def i32ToChar : List Int → Res (List Nat)
  | [] => .ok []
  | c :: rest =>
    if validScalar (i32AsU32 c) then
      (i32ToChar rest).map (fun tail => i32AsU32 c :: tail)
    else .panicked "from_u32(c as u32).unwrap()"

/-- The chunk loop of `Interpret<&[u8]> for Vec<String>`:
`str::from_utf8(c).unwrap()` panics on invalid UTF-8, then NUL
characters are trimmed from both ends. -/
def stringAux : List Nat → Res (List (List Nat))
  | b0 :: b1 :: b2 :: b3 :: rest =>
    if utf8Valid [b0, b1, b2, b3] then
      (stringAux rest).map (fun tail => trimNul [b0, b1, b2, b3] :: tail)
    else .panicked "str::from_utf8(c).unwrap()"
  | _ => .ok []

/-- `Interpret<&[u8]> for Vec<String>` (`binary_decoder.rs` lines 66-81). -/
def bytesToString (values : List Nat) : Res (List (List Nat)) :=
  if values.length % 4 = 0 then stringAux values
  else .panicked "assertion failed: length % 4 == 0"

end Interpret

/-! ## Composite codecs (`codec.rs`) -/

namespace DeltaRunlength

/-- `DeltaRunlength::decode` (`codec.rs` lines 31-36): interpret as
`i32`, run-length decode, delta decode. -/
def decode (bytes : List Nat) : Res (List Int) :=
  (Interpret.bytesToI32 bytes).bind fun data =>
  (RunLength.decode data).bind fun v =>
  Delta.decode v

end DeltaRunlength

namespace IntegerRunLength

/-- `IntegerRunLength::decode` (`codec.rs` lines 76-81): interpret as
`i32`, run-length decode, integer decode with the factor. -/
def decode (bytes : List Nat) (factor : Int) : Res (List F32) :=
  (Interpret.bytesToI32 bytes).bind fun data =>
  (RunLength.decode data).bind fun v =>
  IntegerEncoding.decode v factor

end IntegerRunLength

namespace IntegerDeltaRecursive

/-- `IntegerDeltaRecursive::decode` (`codec.rs` lines 121-128):
interpret as `i16`, recursive-indexing decode, delta decode, integer
decode with the factor. -/
def decode (bytes : List Nat) (factor : Int) : Res (List F32) :=
  (Interpret.bytesToI16 bytes).bind fun data =>
  (RecursiveIndexing.decode data).bind fun v =>
  (Delta.decode v).bind fun w =>
  IntegerEncoding.decode w factor

end IntegerDeltaRecursive

/-! ## Frame header and strategy dispatcher (`decode.rs`) -/

namespace Decoder

/-- `Decoder::header` (`decode.rs` lines 31-53): a buffer shorter than
12 bytes fails with `EncodeError::Header` naming the actual length;
otherwise the first 12 bytes are three big-endian `i32`s. -/
def header (bytes : List Nat) : Res HeaderLayout :=
  if bytes.length < 12 then
    .fail (.Header ("bytes length should be more than " ++ toString bytes.length))
  else
    .ok { codec := toSigned32 (beU32 (bytes.getD 0 0) (bytes.getD 1 0)
                                     (bytes.getD 2 0) (bytes.getD 3 0)),
          length := toSigned32 (beU32 (bytes.getD 4 0) (bytes.getD 5 0)
                                      (bytes.getD 6 0) (bytes.getD 7 0)),
          parameter := toSigned32 (beU32 (bytes.getD 8 0) (bytes.getD 9 0)
                                         (bytes.getD 10 0) (bytes.getD 11 0)) }

/-- `Decoder::field` (`decode.rs` lines 22-28): everything after the
12 header bytes. -/
def field (bytes : List Nat) : List Nat := bytes.drop 12

/-- The `match header.codec` dispatch of `Decoder::apply`
(`decode.rs` lines 60-126), as a function of the codec id, the
quantization parameter and the payload — the only header data the
match arms consult. -/
def dispatch (codec parameter : Int) (field : List Nat) : Res StrategyDataTypes :=
  if codec = 1 then (Interpret.bytesToF32 field).map .VecFloat32
  else if codec = 2 then (Interpret.bytesToI8 field).map .VecInt8
  else if codec = 3 then (Interpret.bytesToI16 field).map .VecInt16
  else if codec = 4 then (Interpret.bytesToI32 field).map .VecInt32
  else if codec = 5 then (Interpret.bytesToString field).map .VecString
  else if codec = 6 then
    ((Interpret.bytesToI32 field).bind fun data =>
     (RunLength.decode data).bind fun v =>
     Interpret.i32ToChar v).map .VecChar
  else if codec = 7 then
    ((Interpret.bytesToI32 field).bind fun data =>
     RunLength.decode data).map .VecInt32
  else if codec = 8 then (DeltaRunlength.decode field).map .VecInt32
  else if codec = 9 then (IntegerRunLength.decode field parameter).map .VecFloat32
  else if codec = 10 then (IntegerDeltaRecursive.decode field parameter).map .VecFloat32
  else if codec = 11 then
    ((Interpret.bytesToI16 field).bind fun r =>
     IntegerEncoding.decode r parameter).map .VecFloat32
  else if codec = 12 then
    ((Interpret.bytesToI16 field).bind fun data =>
     (RecursiveIndexing.decode data).bind fun v =>
     IntegerEncoding.decode v parameter).map .VecFloat32
  else if codec = 13 then
    ((Interpret.bytesToI8 field).bind fun data =>
     (RecursiveIndexing.decode data).bind fun v =>
     IntegerEncoding.decode v parameter).map .VecFloat32
  else if codec = 14 then
    ((Interpret.bytesToI16 field).bind fun data =>
     RecursiveIndexing.decode data).map .VecInt32
  else if codec = 15 then
    ((Interpret.bytesToI8 field).bind fun data =>
     RecursiveIndexing.decode data).map .VecInt32
  else .fail (.Codec (toString codec))

/-- `Decoder::apply` (`decode.rs` lines 56-127): parse the header,
extract the payload, dispatch on the codec id. -/
def apply (bytes : List Nat) : Res StrategyDataTypes :=
  (header bytes).bind fun h => dispatch h.codec h.parameter (field bytes)

end Decoder

/-! ## Statement-side definitions

Definitions used only to state claims: the run-length expansion and the
width-parameterized sentinel rule are written from the claims' own
words, to be compared against the source translations above. -/

/-- The claim C6 hypothesis that every pair's count is non-negative. -/
def pairCountsOk : List Int → Bool
  | _ :: count :: rest => decide (0 ≤ count) && pairCountsOk rest
  | _ => true

/-- Stated from claim C6's words: each (value, count) pair expands to
`count` repetitions of `value`, pairs in their original order. -/
def runLengthExpandSpec : List Int → List Int
  | value :: count :: rest => List.replicate count.toNat value ++ runLengthExpandSpec rest
  | _ => []

/-- Stated from claim C2's words: the recursive-indexing decode loop
with the sentinel bounds `maxV`/`minV` of the input's own integer
width — an item equal to a bound is accumulated without emitting, any
other item is accumulated and the accumulator emitted, then reset. -/
def decodeWidthAux (maxV minV : Int) : List Int → Int → List Int
  | [], _ => []
  | item :: rest, acc =>
    if item = maxV ∨ item = minV then
      decodeWidthAux maxV minV rest (wrap32 (acc + item))
    else
      wrap32 (acc + item) :: decodeWidthAux maxV minV rest 0

/-! ## Arithmetic helper lemmas -/

theorem wrap32_eq_self {z : Int} (h : isI32 z) : wrap32 z = z := by
  unfold wrap32; unfold isI32 at h; omega

theorem wrap32_add_right (a b : Int) : wrap32 (a + wrap32 b) = wrap32 (a + b) := by
  unfold wrap32; omega

theorem wrap32_add_left (a b : Int) : wrap32 (wrap32 a + b) = wrap32 (a + b) := by
  unfold wrap32; omega

/-! ## Claim C7 -/

/-- C7: `Decoder::header` reads the first 12 bytes as three big-endian
32-bit signed integers: the example buffer parses to codec 4, count 52,
parameter 0, and every buffer shorter than 12 bytes fails with a
header error whose payload names the actual byte length. -/
theorem C7_header_parsing :
    Decoder.header [0, 0, 0, 4, 0, 0, 0, 52, 0, 0, 0, 0] =
      .ok { codec := 4, length := 52, parameter := 0 } ∧
    ∀ b : List Nat, b.length < 12 →
      Decoder.header b =
        .fail (.Header ("bytes length should be more than " ++ toString b.length)) := by
  refine ⟨by decide, ?_⟩
  intro b h
  unfold Decoder.header
  rw [if_pos h]

/-- Witness for C7 at an 11-byte buffer. -/
theorem C7_header_parsing_witness :
    (List.replicate 11 0).length < 12 ∧
    Decoder.header (List.replicate 11 0) =
      .fail (.Header "bytes length should be more than 11") := by
  refine ⟨by decide, ?_⟩
  rw [C7_header_parsing.2 (List.replicate 11 0) (by decide)]
  decide

/-! ## Claim C5 -/

/-- C5: evaluation of the code at the disputed input.
`IntegerEncoding::decode` checks nothing about the factor: with factor
0 it still returns `Ok`, the division by zero happening silently in
`f32` arithmetic, and no `InvalidParameter` error exists anywhere in
the error type reconstructed from the sources. -/
theorem C5_integer_decode_factor_zero :
    IntegerEncoding.decode [1] 0 = .ok [.quotient 1 0] ∧
    ∀ values : List Int,
      IntegerEncoding.decode values 0 = .ok (values.map fun x => .quotient x 0) :=
  ⟨rfl, fun _ => rfl⟩

/-! ## Claim C4 -/

/-- C4: evaluation of the code at the failing inputs.  Every
byte-interpreter conversion aborts the process on bad input instead of
returning a typed error: the f32/i32/i16 interpreters `assert!` on
misaligned length, the string interpreter `unwrap`s UTF-8 validation,
the char interpreter `unwrap`s `from_u32`, and the abort propagates
through `Decoder::apply` (here on a codec-1 field with a 1-byte
payload). -/
theorem C4_interpreters_abort :
    Interpret.bytesToF32 [0] = .panicked "assertion failed: length % 4 == 0" ∧
    Interpret.bytesToI32 [0] = .panicked "assertion failed: length % 4 == 0" ∧
    Interpret.bytesToI16 [0] = .panicked "assertion failed: length % 2 == 0" ∧
    Interpret.bytesToString [255, 0, 0, 0] = .panicked "str::from_utf8(c).unwrap()" ∧
    Interpret.bytesToChar [0, 216, 0, 0] = .panicked "from_u32(c).unwrap()" ∧
    Decoder.apply [0, 0, 0, 1, 0, 0, 0, 0, 0, 0, 0, 0, 0] =
      .panicked "assertion failed: length % 4 == 0" := by
  decide

/-! ## Claim C6 -/

theorem runLength_decodeAux_ok :
    ∀ l : List Int, l.length % 2 = 0 → pairCountsOk l = true →
      RunLength.decodeAux l = .ok (runLengthExpandSpec l) := by
  intro l
  induction l using RunLength.decodeAux.induct with
  | case1 =>
    intro _ _; rfl
  | case2 x =>
    intro h _
    simp at h
  | case3 value rep rest hcast =>
    intro _ hc
    unfold pairCountsOk at hc
    simp only [Bool.and_eq_true, decide_eq_true_eq] at hc
    unfold castUsize at hcast
    rw [if_pos hc.1] at hcast
    exact absurd hcast (by simp)
  | case4 value rep rest k hcast ih =>
    intro hlen hc
    unfold pairCountsOk at hc
    simp only [Bool.and_eq_true, decide_eq_true_eq] at hc
    have hrest : rest.length % 2 = 0 := by
      simp only [List.length_cons] at hlen
      omega
    unfold RunLength.decodeAux
    rw [hcast, ih hrest hc.2]
    unfold castUsize at hcast
    rw [if_pos hc.1] at hcast
    have hk : k = rep.toNat := by
      cases hcast
      rfl
    subst hk
    rfl

/-- C6: with non-negative counts, `RunLength::decode` returns an error
exactly when the input length is odd (the Rust guard
`!values.len() % 2 == 0` is a bitwise NOT on `usize` followed by
`% 2`, true precisely for odd lengths below 2^64), and on even-length
input returns each pair's value repeated count times, pairs in their
original order. -/
theorem C6_runlength_decode (values : List Int)
    (hlen : values.length < 18446744073709551616)
    (hcounts : pairCountsOk values = true) :
    ((RunLength.decode values).isFail = true ↔ values.length % 2 = 1) ∧
    (values.length % 2 = 0 →
      RunLength.decode values = .ok (runLengthExpandSpec values)) := by
  have hguard : (18446744073709551615 - values.length) % 2 = 0 ↔ values.length % 2 = 1 := by
    omega
  have heven : values.length % 2 = 0 →
      RunLength.decode values = .ok (runLengthExpandSpec values) := by
    intro he
    unfold RunLength.decode
    rw [if_neg (by omega), runLength_decodeAux_ok values he hcounts]
  refine ⟨⟨?_, ?_⟩, heven⟩
  · intro hf
    by_contra hodd
    rw [heven (by omega)] at hf
    simp [Res.isFail] at hf
  · intro hodd
    unfold RunLength.decode
    rw [if_pos (hguard.mpr hodd)]
    rfl

/-- Witness for C6 at the crate's own doctest vector. -/
theorem C6_runlength_decode_witness :
    ([1, 4, 2, 1, 1, 4] : List Int).length < 18446744073709551616 ∧
    pairCountsOk [1, 4, 2, 1, 1, 4] = true ∧
    RunLength.decode [1, 4, 2, 1, 1, 4] = .ok (runLengthExpandSpec [1, 4, 2, 1, 1, 4]) :=
  ⟨by decide, by decide,
    (C6_runlength_decode [1, 4, 2, 1, 1, 4] (by decide) (by decide)).2 (by decide)⟩

/-! ## Claim C2 -/

/-- C2 counterexample: feeding the 8-bit input [127, 1] (that is,
`i8::MAX` followed by 1, the i8 interpretation used by codecs 13 and
15), the code emits both items unchanged — 127 is not treated as a
sentinel — whereas the claimed width-8 sentinel rule would accumulate
127 and emit the single value 128. -/
theorem C2_width_sentinel_counterexample :
    RecursiveIndexing.decode [127, 1] = .ok [127, 1] ∧
    decodeWidthAux 127 (-128) [127, 1] 0 = [128] ∧
    ([127, 1] : List Int) ≠ [128] := by
  decide

theorem recursive_decodeAux_eq_width :
    ∀ (l : List Int) (acc : Int),
      RecursiveIndexing.decodeAux l acc = decodeWidthAux 32767 (-32768) l acc := by
  intro l
  induction l with
  | nil => intro acc; rfl
  | cons item rest ih =>
    intro acc
    unfold RecursiveIndexing.decodeAux decodeWidthAux
    by_cases h : item = 32767 ∨ item = -32768
    · rw [if_pos h, if_pos h, ih]
    · rw [if_neg h, if_neg h, ih]

theorem recursive_decode_i8_id :
    ∀ l : List Int, (∀ x ∈ l, -128 ≤ x ∧ x ≤ 127) →
      RecursiveIndexing.decodeAux l 0 = l := by
  intro l
  induction l with
  | nil => intro _; rfl
  | cons item rest ih =>
    intro h
    have hitem := h item (List.mem_cons_self item rest)
    have hrest : ∀ x ∈ rest, -128 ≤ x ∧ x ≤ 127 :=
      fun x hx => h x (List.mem_cons_of_mem item hx)
    unfold RecursiveIndexing.decodeAux
    rw [if_neg (by omega)]
    rw [ih hrest]
    have : wrap32 (0 + item) = item := by
      rw [Int.zero_add]
      exact wrap32_eq_self ⟨by omega, by omega⟩
    rw [this]

/-- C2 amended: `RecursiveIndexing::decode` always uses `i16::MAX` and
`i16::MIN` as the non-emitting sentinels, whatever the width of the
input that feeds it; in particular for 8-bit input (codecs 13 and 15)
no item is ever a sentinel and the input decodes to itself. -/
theorem C2_sentinels_always_i16 :
    (∀ bytes : List Int,
      RecursiveIndexing.decode bytes = .ok (decodeWidthAux 32767 (-32768) bytes 0)) ∧
    (∀ bytes : List Int, (∀ x ∈ bytes, -128 ≤ x ∧ x ≤ 127) →
      RecursiveIndexing.decode bytes = .ok bytes) := by
  constructor
  · intro bytes
    unfold RecursiveIndexing.decode
    rw [recursive_decodeAux_eq_width]
  · intro bytes h
    unfold RecursiveIndexing.decode
    rw [recursive_decode_i8_id bytes h]

/-- Witness for C2 on a concrete 8-bit-range input containing both
8-bit extremes. -/
theorem C2_sentinels_always_i16_witness :
    (∀ x ∈ ([127, -128, 5] : List Int), -128 ≤ x ∧ x ≤ 127) ∧
    RecursiveIndexing.decode [127, -128, 5] = .ok [127, -128, 5] :=
  ⟨by decide, C2_sentinels_always_i16.2 [127, -128, 5] (by decide)⟩

/-! ## Claim C8 -/

theorem delta_roundtrip_aux :
    ∀ (rest : List Int) (pos : Int), (∀ x ∈ rest, isI32 x) →
      Delta.decodeAux pos (Delta.encodeAux pos rest) = rest := by
  intro rest
  induction rest with
  | nil => intro pos _; rfl
  | cons v t ih =>
    intro pos h
    have hv : isI32 v := h v (List.mem_cons_self v t)
    have ht : ∀ x ∈ t, isI32 x := fun x hx => h x (List.mem_cons_of_mem v hx)
    unfold Delta.encodeAux Delta.decodeAux
    have key : wrap32 (pos + wrap32 (v - pos)) = v := by
      rw [wrap32_add_right]
      have harith : pos + (v - pos) = v := by ring
      rw [harith, wrap32_eq_self hv]
    rw [key, ih v ht]

/-- C8: for arrays of `i32` values, delta decode inverts delta encode
whenever the array has at least 2 elements; a single-element array
delta-decodes to itself; and encode on an array of fewer than 2
elements fails with the insufficient-length `Encoding` error naming
the offending length. -/
theorem C8_delta (a : List Int) (ha : ∀ x ∈ a, isI32 x) :
    (2 ≤ a.length → (Delta.encode a).bind Delta.decode = .ok a) ∧
    (∀ x : Int, Delta.decode [x] = .ok [x]) ∧
    (a.length < 2 →
      Delta.encode a = .fail (.Encoding
        ("Delta::encode() error: bytes length should be greater than "
          ++ toString a.length))) := by
  refine ⟨?_, fun x => rfl, ?_⟩
  · intro h2
    cases a with
    | nil => simp at h2
    | cons b rest =>
      unfold Delta.encode
      rw [if_neg (by simp only [List.length_cons] at h2 ⊢; omega)]
      show Delta.decode (b :: Delta.encodeAux b rest) = .ok (b :: rest)
      show Res.ok (b :: Delta.decodeAux b (Delta.encodeAux b rest)) = .ok (b :: rest)
      rw [delta_roundtrip_aux rest b (fun x hx => ha x (List.mem_cons_of_mem b hx))]
  · intro h1
    unfold Delta.encode
    rw [if_pos (by omega)]

/-- Witness for C8 at a concrete 4-element array. -/
theorem C8_delta_witness :
    (∀ x ∈ ([1, 2, 3, 5] : List Int), isI32 x) ∧
    (Delta.encode [1, 2, 3, 5]).bind Delta.decode = .ok [1, 2, 3, 5] :=
  ⟨by decide, (C8_delta [1, 2, 3, 5] (by decide)).1 (by decide)⟩

/-! ## Claims C1 and C9: recursive indexing -/

theorem encodePosAux_succ (fuel : Nat) (num : Int) :
    RecursiveIndexing.encodePosAux (fuel + 1) num =
      if 32767 ≤ num then
        (32767 :: (RecursiveIndexing.encodePosAux fuel (wrap32 (num - 32767))).1,
          (RecursiveIndexing.encodePosAux fuel (wrap32 (num - 32767))).2)
      else ([], num) := rfl

theorem encodeNegAux_succ (fuel : Nat) (num : Int) :
    RecursiveIndexing.encodeNegAux (fuel + 1) num =
      if num ≤ -32768 then
        (-32768 :: (RecursiveIndexing.encodeNegAux fuel (wrap32 (num + 32768))).1,
          (RecursiveIndexing.encodeNegAux fuel (wrap32 (num + 32768))).2)
      else ([], num) := rfl

theorem encodePosAux_spec :
    ∀ (fuel : Nat) (num : Int), 0 ≤ num → num < 2147483648 → num.toNat ≤ fuel →
      (∀ x ∈ (RecursiveIndexing.encodePosAux fuel num).1, x = 32767) ∧
      0 ≤ (RecursiveIndexing.encodePosAux fuel num).2 ∧
      (RecursiveIndexing.encodePosAux fuel num).2 < 32767 ∧
      (RecursiveIndexing.encodePosAux fuel num).1.sum +
        (RecursiveIndexing.encodePosAux fuel num).2 = num ∧
      (RecursiveIndexing.encodePosAux fuel num).1.length ≤ num.toNat / 32767 := by
  intro fuel
  induction fuel with
  | zero =>
    intro num h0 _ hf
    have hz : num = 0 := by omega
    subst hz
    exact ⟨by simp [RecursiveIndexing.encodePosAux],
      by simp [RecursiveIndexing.encodePosAux],
      by simp [RecursiveIndexing.encodePosAux],
      by simp [RecursiveIndexing.encodePosAux],
      by simp [RecursiveIndexing.encodePosAux]⟩
  | succ fuel ih =>
    intro num h0 hlt hf
    by_cases hge : 32767 ≤ num
    · have hw : wrap32 (num - 32767) = num - 32767 :=
        wrap32_eq_self ⟨by omega, by omega⟩
      have hrec := ih (num - 32767) (by omega) (by omega) (by omega)
      have hval : RecursiveIndexing.encodePosAux (fuel + 1) num =
          (32767 :: (RecursiveIndexing.encodePosAux fuel (num - 32767)).1,
            (RecursiveIndexing.encodePosAux fuel (num - 32767)).2) := by
        rw [encodePosAux_succ, if_pos hge, hw]
      rw [hval]
      obtain ⟨hs, hr0, hrlt, hsum, hlen⟩ := hrec
      refine ⟨?_, hr0, hrlt, ?_, ?_⟩
      · intro x hx
        rcases List.mem_cons.mp hx with h | h
        · exact h
        · exact hs x h
      · simp only [List.sum_cons]
        omega
      · simp only [List.length_cons]
        omega
    · have hval : RecursiveIndexing.encodePosAux (fuel + 1) num = ([], num) := by
        rw [encodePosAux_succ, if_neg hge]
      rw [hval]
      exact ⟨by simp, h0, by omega, by simp, by simp⟩

theorem encodeNegAux_spec :
    ∀ (fuel : Nat) (num : Int), -2147483648 ≤ num → num ≤ 0 → num.natAbs ≤ fuel →
      (∀ x ∈ (RecursiveIndexing.encodeNegAux fuel num).1, x = -32768) ∧
      -32768 < (RecursiveIndexing.encodeNegAux fuel num).2 ∧
      (RecursiveIndexing.encodeNegAux fuel num).2 ≤ 0 ∧
      (RecursiveIndexing.encodeNegAux fuel num).1.sum +
        (RecursiveIndexing.encodeNegAux fuel num).2 = num ∧
      (RecursiveIndexing.encodeNegAux fuel num).1.length ≤ num.natAbs / 32768 := by
  intro fuel
  induction fuel with
  | zero =>
    intro num hlo _ hf
    have hz : num = 0 := by omega
    subst hz
    exact ⟨by simp [RecursiveIndexing.encodeNegAux],
      by simp [RecursiveIndexing.encodeNegAux],
      by simp [RecursiveIndexing.encodeNegAux],
      by simp [RecursiveIndexing.encodeNegAux],
      by simp [RecursiveIndexing.encodeNegAux]⟩
  | succ fuel ih =>
    intro num hlo hhi hf
    by_cases hle : num ≤ -32768
    · have hw : wrap32 (num + 32768) = num + 32768 :=
        wrap32_eq_self ⟨by omega, by omega⟩
      have hrec := ih (num + 32768) (by omega) (by omega) (by omega)
      have hval : RecursiveIndexing.encodeNegAux (fuel + 1) num =
          (-32768 :: (RecursiveIndexing.encodeNegAux fuel (num + 32768)).1,
            (RecursiveIndexing.encodeNegAux fuel (num + 32768)).2) := by
        rw [encodeNegAux_succ, if_pos hle, hw]
      rw [hval]
      obtain ⟨hs, hr0, hrle, hsum, hlen⟩ := hrec
      refine ⟨?_, hr0, hrle, ?_, ?_⟩
      · intro x hx
        rcases List.mem_cons.mp hx with h | h
        · exact h
        · exact hs x h
      · simp only [List.sum_cons]
        omega
      · simp only [List.length_cons]
        omega
    · have hval : RecursiveIndexing.encodeNegAux (fuel + 1) num = ([], num) := by
        rw [encodeNegAux_succ, if_neg hle]
      rw [hval]
      exact ⟨by simp, by omega, hhi, by simp, by simp⟩

theorem encodeOne_spec (num : Int) (h : isI32 num) :
    ∃ s r, RecursiveIndexing.encodeOne num = .ok (s ++ [r]) ∧
      (∀ x ∈ s, x = 32767 ∨ x = -32768) ∧
      -32768 < r ∧ r < 32767 ∧ s.sum + r = num ∧
      s.length ≤ (num.natAbs + 32766) / 32767 := by
  by_cases h0 : 0 ≤ num
  · obtain ⟨hs, hr0, hrlt, hsum, hlen⟩ :=
      encodePosAux_spec num.toNat num h0 h.2 (Nat.le_refl _)
    refine ⟨(RecursiveIndexing.encodePosAux num.toNat num).1,
      (RecursiveIndexing.encodePosAux num.toNat num).2, ?_, ?_, by omega, hrlt, hsum, by omega⟩
    · unfold RecursiveIndexing.encodeOne
      rw [if_pos h0]
      unfold castI16
      rw [if_pos ⟨by omega, by omega⟩]
    · intro x hx
      exact Or.inl (hs x hx)
  · obtain ⟨hs, hr0, hrle, hsum, hlen⟩ :=
      encodeNegAux_spec num.natAbs num h.1 (by omega) (Nat.le_refl _)
    refine ⟨(RecursiveIndexing.encodeNegAux num.natAbs num).1,
      (RecursiveIndexing.encodeNegAux num.natAbs num).2, ?_, ?_, hr0, by omega, hsum, by omega⟩
    · unfold RecursiveIndexing.encodeOne
      rw [if_neg h0]
      unfold castI16
      rw [if_pos ⟨by omega, by omega⟩]
    · intro x hx
      exact Or.inr (hs x hx)

theorem decodeAux_cons (item : Int) (rest : List Int) (acc : Int) :
    RecursiveIndexing.decodeAux (item :: rest) acc =
      if item = 32767 ∨ item = -32768 then
        RecursiveIndexing.decodeAux rest (wrap32 (acc + item))
      else wrap32 (acc + item) :: RecursiveIndexing.decodeAux rest 0 := rfl

theorem decodeAux_block :
    ∀ (s : List Int) (r : Int) (rest : List Int) (acc : Int),
      (∀ x ∈ s, x = 32767 ∨ x = -32768) → -32768 < r → r < 32767 →
      RecursiveIndexing.decodeAux (s ++ r :: rest) acc =
        wrap32 (acc + s.sum + r) :: RecursiveIndexing.decodeAux rest 0 := by
  intro s
  induction s with
  | nil =>
    intro r rest acc _ hr1 hr2
    show RecursiveIndexing.decodeAux (r :: rest) acc = _
    rw [decodeAux_cons, if_neg (by omega)]
    simp only [List.sum_nil, add_zero]
  | cons x s ih =>
    intro r rest acc hs hr1 hr2
    have hx := hs x (List.mem_cons_self x s)
    show RecursiveIndexing.decodeAux (x :: (s ++ r :: rest)) acc = _
    rw [decodeAux_cons, if_pos hx]
    rw [ih r rest (wrap32 (acc + x)) (fun y hy => hs y (List.mem_cons_of_mem x hy)) hr1 hr2]
    congr 1
    rw [add_assoc, wrap32_add_left]
    simp only [List.sum_cons]
    congr 1
    ring

theorem recursive_encode_decode_ok :
    ∀ a : List Int, (∀ x ∈ a, isI32 x) →
      ∃ e, RecursiveIndexing.encode a = .ok e ∧ RecursiveIndexing.decode e = .ok a := by
  intro a
  induction a with
  | nil => intro _; exact ⟨[], rfl, rfl⟩
  | cons num rest ih =>
    intro h
    obtain ⟨s, r, he, hs, hr1, hr2, hsum, _⟩ :=
      encodeOne_spec num (h num (List.mem_cons_self num rest))
    obtain ⟨e, hee, hde⟩ := ih (fun x hx => h x (List.mem_cons_of_mem num hx))
    refine ⟨(s ++ [r]) ++ e, ?_, ?_⟩
    · show (RecursiveIndexing.encodeOne num).bind _ = _
      rw [he]
      show (RecursiveIndexing.encode rest).map _ = _
      rw [hee]
      rfl
    · unfold RecursiveIndexing.decode
      have hsplit : (s ++ [r]) ++ e = s ++ (r :: e) := by
        rw [List.append_assoc]
        rfl
      rw [hsplit, decodeAux_block s r e 0 hs hr1 hr2]
      have hnum : wrap32 (0 + s.sum + r) = num := by
        have harith : (0 : Int) + s.sum + r = num := by omega
        rw [harith]
        exact wrap32_eq_self (h num (List.mem_cons_self num rest))
      rw [hnum]
      have hetail : RecursiveIndexing.decodeAux e 0 = rest := by
        have hde2 : Res.ok (RecursiveIndexing.decodeAux e 0) = Res.ok rest := hde
        cases hde2
        rfl
      rw [hetail]

/-- C1: for every array of `i32` values — boundary values such as
`i16::MAX`, `i16::MIN` and `i32::MIN` included — recursive-indexing
encode succeeds and decode restores the array exactly. -/
theorem C1_recursive_roundtrip (a : List Int) (h : ∀ x ∈ a, isI32 x) :
    ∃ e, RecursiveIndexing.encode a = .ok e ∧ RecursiveIndexing.decode e = .ok a :=
  recursive_encode_decode_ok a h

/-- Witness for C1 on the crate's doctest vector extended with
`i16::MAX`, `i16::MIN`, `i32::MIN` and `i32::MAX`. -/
theorem C1_recursive_roundtrip_witness :
    (∀ x ∈ ([1, 420, 32767, 120, -32768, 32769, -2147483648, 2147483647] : List Int),
      isI32 x) ∧
    ∃ e, RecursiveIndexing.encode
        [1, 420, 32767, 120, -32768, 32769, -2147483648, 2147483647] = .ok e ∧
      RecursiveIndexing.decode e =
        .ok [1, 420, 32767, 120, -32768, 32769, -2147483648, 2147483647] :=
  ⟨by decide,
    C1_recursive_roundtrip [1, 420, 32767, 120, -32768, 32769, -2147483648, 2147483647]
      (by decide)⟩

theorem encodePosAux_stable :
    ∀ (f1 f2 : Nat) (num : Int), 0 ≤ num → num < 2147483648 →
      num.toNat ≤ f1 → num.toNat ≤ f2 →
      RecursiveIndexing.encodePosAux f1 num = RecursiveIndexing.encodePosAux f2 num := by
  intro f1
  induction f1 with
  | zero =>
    intro f2 num h0 _ hf1 _
    have hz : num = 0 := by omega
    subst hz
    cases f2 with
    | zero => rfl
    | succ f2 =>
      show _ = RecursiveIndexing.encodePosAux (f2 + 1) 0
      rw [encodePosAux_succ, if_neg (by omega)]
      rfl
  | succ f1 ih =>
    intro f2 num h0 hlt hf1 hf2
    cases f2 with
    | zero =>
      have hz : num = 0 := by omega
      subst hz
      show RecursiveIndexing.encodePosAux (f1 + 1) 0 = _
      rw [encodePosAux_succ, if_neg (by omega)]
      rfl
    | succ f2 =>
      by_cases hge : 32767 ≤ num
      · have hw : wrap32 (num - 32767) = num - 32767 :=
          wrap32_eq_self ⟨by omega, by omega⟩
        show RecursiveIndexing.encodePosAux (f1 + 1) num =
          RecursiveIndexing.encodePosAux (f2 + 1) num
        rw [encodePosAux_succ, encodePosAux_succ, if_pos hge, hw,
          ih f2 (num - 32767) (by omega) (by omega) (by omega) (by omega), if_pos hge]
      · show RecursiveIndexing.encodePosAux (f1 + 1) num =
          RecursiveIndexing.encodePosAux (f2 + 1) num
        rw [encodePosAux_succ, encodePosAux_succ, if_neg hge, if_neg hge]

theorem encodeNegAux_stable :
    ∀ (f1 f2 : Nat) (num : Int), -2147483648 ≤ num → num ≤ 0 →
      num.natAbs ≤ f1 → num.natAbs ≤ f2 →
      RecursiveIndexing.encodeNegAux f1 num = RecursiveIndexing.encodeNegAux f2 num := by
  intro f1
  induction f1 with
  | zero =>
    intro f2 num hlo hhi hf1 _
    have hz : num = 0 := by omega
    subst hz
    cases f2 with
    | zero => rfl
    | succ f2 =>
      show _ = RecursiveIndexing.encodeNegAux (f2 + 1) 0
      rw [encodeNegAux_succ, if_neg (by omega)]
      rfl
  | succ f1 ih =>
    intro f2 num hlo hhi hf1 hf2
    cases f2 with
    | zero =>
      have hz : num = 0 := by omega
      subst hz
      show RecursiveIndexing.encodeNegAux (f1 + 1) 0 = _
      rw [encodeNegAux_succ, if_neg (by omega)]
      rfl
    | succ f2 =>
      by_cases hle : num ≤ -32768
      · have hw : wrap32 (num + 32768) = num + 32768 :=
          wrap32_eq_self ⟨by omega, by omega⟩
        show RecursiveIndexing.encodeNegAux (f1 + 1) num =
          RecursiveIndexing.encodeNegAux (f2 + 1) num
        rw [encodeNegAux_succ, encodeNegAux_succ, if_pos hle, hw,
          ih f2 (num + 32768) (by omega) (by omega) (by omega) (by omega), if_pos hle]
      · show RecursiveIndexing.encodeNegAux (f1 + 1) num =
          RecursiveIndexing.encodeNegAux (f2 + 1) num
        rw [encodeNegAux_succ, encodeNegAux_succ, if_neg hle, if_neg hle]

/-- C9: the encode loop of `RecursiveIndexing` terminates on every
`i32` input with a bounded iteration count: per input value it emits a
block of at most `ceil(|value| / 32767)` sentinels followed by one
remainder element, and giving the loop any fuel beyond the bound built
into `encodeOne` changes nothing (the `while` loop has already
exited). -/
theorem C9_recursive_encode_bounded (num : Int) (h : isI32 num) :
    (∃ s r, RecursiveIndexing.encodeOne num = .ok (s ++ [r]) ∧
      (∀ x ∈ s, x = 32767 ∨ x = -32768) ∧
      s.length ≤ (num.natAbs + 32766) / 32767) ∧
    (∀ extra : Nat,
      (0 ≤ num → RecursiveIndexing.encodePosAux (num.toNat + extra) num =
        RecursiveIndexing.encodePosAux num.toNat num) ∧
      (num < 0 → RecursiveIndexing.encodeNegAux (num.natAbs + extra) num =
        RecursiveIndexing.encodeNegAux num.natAbs num)) := by
  constructor
  · obtain ⟨s, r, he, hs, _, _, _, hlen⟩ := encodeOne_spec num h
    exact ⟨s, r, he, hs, hlen⟩
  · intro extra
    constructor
    · intro h0
      exact encodePosAux_stable (num.toNat + extra) num.toNat num h0 h.2
        (by omega) (Nat.le_refl _)
    · intro hneg
      exact encodeNegAux_stable (num.natAbs + extra) num.natAbs num h.1
        (by omega) (by omega) (Nat.le_refl _)

/-- Witness for C9 at the claim's own pathological input `i32::MIN`. -/
theorem C9_recursive_encode_bounded_witness :
    isI32 (-2147483648 : Int) ∧
    ∃ s r, RecursiveIndexing.encodeOne (-2147483648) = .ok (s ++ [r]) ∧
      (∀ x ∈ s, x = 32767 ∨ x = -32768) ∧
      s.length ≤ ((-2147483648 : Int).natAbs + 32766) / 32767 :=
  ⟨by decide, (C9_recursive_encode_bounded (-2147483648) (by decide)).1⟩

/-! ## Claim C3 -/

/-- C3 counterexample: a field buffer declaring codec 4 and element
count 52 but carrying a 4-byte payload decodes successfully to a
single `i32` — the dispatcher never consults the declared count, so a
successful decode whose length differs from the count does occur. -/
theorem C3_count_mismatch_counterexample :
    Decoder.apply [0, 0, 0, 4, 0, 0, 0, 52, 0, 0, 0, 0, 0, 0, 0, 19] =
      .ok (.VecInt32 [19]) ∧
    Decoder.header [0, 0, 0, 4, 0, 0, 0, 52, 0, 0, 0, 0, 0, 0, 0, 19] =
      .ok { codec := 4, length := 52, parameter := 0 } ∧
    ([19] : List Int).length ≠ 52 := by
  decide

theorem i32Aux_length :
    ∀ (n : Nat) (l : List Nat), l.length ≤ n → l.length % 4 = 0 →
      (Interpret.i32Aux l).length = l.length / 4 := by
  intro n
  induction n with
  | zero =>
    intro l hl _
    have hnil : l = [] := List.length_eq_zero.mp (by omega)
    subst hnil
    rfl
  | succ n ih =>
    intro l hl hm
    match l with
    | [] => rfl
    | [a] => simp at hm
    | [a, b] => simp at hm
    | [a, b, c] => simp at hm
    | a :: b :: c :: d :: rest =>
      have h1 : rest.length ≤ n := by
        simp only [List.length_cons] at hl
        omega
      have h2 : rest.length % 4 = 0 := by
        simp only [List.length_cons] at hm ⊢
        omega
      show (toSigned32 (beU32 a b c d) :: Interpret.i32Aux rest).length = _
      simp only [List.length_cons, ih rest h1 h2]
      omega

/-- C3 amended: the dispatcher ignores the declared element count
entirely; for a successfully decoded field the output length is a
function of the payload alone — here, for codec 4 with any four count
bytes whatsoever, decode succeeds on any 4-aligned payload and yields
`payload length / 4` elements, whether or not that matches the
declared count. -/
theorem C3_decoded_length_ignores_count
    (c0 c1 c2 c3 p0 p1 p2 p3 : Nat) (payload : List Nat)
    (hp : payload.length % 4 = 0) :
    Decoder.apply (0 :: 0 :: 0 :: 4 :: c0 :: c1 :: c2 :: c3 ::
        p0 :: p1 :: p2 :: p3 :: payload) =
      .ok (.VecInt32 (Interpret.i32Aux payload)) ∧
    (Interpret.i32Aux payload).length = payload.length / 4 := by
  constructor
  · unfold Decoder.apply Decoder.header
    rw [if_neg (by simp only [List.length_cons]; omega), Res.bind_ok]
    simp only [List.getD_cons_zero, List.getD_cons_succ]
    have hc : toSigned32 (beU32 0 0 0 4) = 4 := by norm_num [beU32, toSigned32]
    have hf : Decoder.field (0 :: 0 :: 0 :: 4 :: c0 :: c1 :: c2 :: c3 ::
        p0 :: p1 :: p2 :: p3 :: payload) = payload := by
      unfold Decoder.field
      simp only [List.drop_succ_cons, List.drop_zero]
    rw [hc, hf]
    unfold Decoder.dispatch
    rw [if_neg (by decide), if_neg (by decide), if_neg (by decide), if_pos rfl]
    unfold Interpret.bytesToI32
    rw [if_pos hp]
    rfl
  · exact i32Aux_length payload.length payload (Nat.le_refl _) hp

/-- Witness for C3's amended statement: the counterexample buffer,
whose count field (52) is far from the decoded length (1). -/
theorem C3_decoded_length_ignores_count_witness :
    ([0, 0, 0, 19] : List Nat).length % 4 = 0 ∧
    Decoder.apply [0, 0, 0, 4, 0, 0, 0, 52, 0, 0, 0, 0, 0, 0, 0, 19] =
      .ok (.VecInt32 (Interpret.i32Aux [0, 0, 0, 19])) ∧
    (Interpret.i32Aux [0, 0, 0, 19]).length = ([0, 0, 0, 19] : List Nat).length / 4 :=
  ⟨by decide,
    (C3_decoded_length_ignores_count 0 0 0 52 0 0 0 0 [0, 0, 0, 19] (by decide)).1,
    (C3_decoded_length_ignores_count 0 0 0 52 0 0 0 0 [0, 0, 0, 19] (by decide)).2⟩

/-! ## Claim C10 -/

theorem getD_eq_of_take_eq (b1 b2 : List Nat) (i : Nat)
    (h : b1.take 4 = b2.take 4) (hi : i < 4) : b1.getD i 0 = b2.getD i 0 := by
  have h4 := congrArg (fun l => l[i]?) h
  simp only [List.getElem?_take, if_pos hi] at h4
  simp only [List.getD_eq_getElem?_getD, h4]

theorem getD_eq_of_drop_eq (b1 b2 : List Nat) (i : Nat)
    (h : b1.drop 8 = b2.drop 8) (hi : 8 ≤ i) : b1.getD i 0 = b2.getD i 0 := by
  have h8 := congrArg (fun l => l[i - 8]?) h
  simp only [List.getElem?_drop] at h8
  have hadd : 8 + (i - 8) = i := by omega
  rw [hadd] at h8
  simp only [List.getD_eq_getElem?_getD, h8]

/-- C10: the dispatcher's result does not depend on the header's
declared element count — any two field buffers of equal length that
agree outside the count field (bytes 4..8) decode to the same result,
success or failure alike. -/
theorem C10_count_independence (b1 b2 : List Nat)
    (hlen : b1.length = b2.length)
    (htake : b1.take 4 = b2.take 4)
    (hdrop : b1.drop 8 = b2.drop 8) :
    Decoder.apply b1 = Decoder.apply b2 := by
  by_cases h12 : b1.length < 12
  · unfold Decoder.apply Decoder.header
    rw [if_pos h12, if_pos (by omega), hlen, Res.bind_fail, Res.bind_fail]
  · have hfield : Decoder.field b1 = Decoder.field b2 := by
      unfold Decoder.field
      have h12eq : (12 : Nat) = 8 + 4 := by norm_num
      rw [h12eq, ← List.drop_drop, ← List.drop_drop, hdrop]
    unfold Decoder.apply Decoder.header
    rw [if_neg h12, if_neg (by omega), Res.bind_ok, Res.bind_ok]
    rw [getD_eq_of_take_eq b1 b2 0 htake (by omega),
      getD_eq_of_take_eq b1 b2 1 htake (by omega),
      getD_eq_of_take_eq b1 b2 2 htake (by omega),
      getD_eq_of_take_eq b1 b2 3 htake (by omega),
      getD_eq_of_drop_eq b1 b2 8 hdrop (by omega),
      getD_eq_of_drop_eq b1 b2 9 hdrop (by omega),
      getD_eq_of_drop_eq b1 b2 10 hdrop (by omega),
      getD_eq_of_drop_eq b1 b2 11 hdrop (by omega),
      hfield]

/-- Witness for C10: two codec-4 buffers identical except for their
count fields (52 versus 153053462) decode identically. -/
theorem C10_count_independence_witness :
    ([0, 0, 0, 4, 0, 0, 0, 52, 0, 0, 0, 0, 0, 0, 0, 19] : List Nat).length =
      ([0, 0, 0, 4, 9, 31, 9, 22, 0, 0, 0, 0, 0, 0, 0, 19] : List Nat).length ∧
    ([0, 0, 0, 4, 0, 0, 0, 52, 0, 0, 0, 0, 0, 0, 0, 19] : List Nat).take 4 =
      ([0, 0, 0, 4, 9, 31, 9, 22, 0, 0, 0, 0, 0, 0, 0, 19] : List Nat).take 4 ∧
    ([0, 0, 0, 4, 0, 0, 0, 52, 0, 0, 0, 0, 0, 0, 0, 19] : List Nat).drop 8 =
      ([0, 0, 0, 4, 9, 31, 9, 22, 0, 0, 0, 0, 0, 0, 0, 19] : List Nat).drop 8 ∧
    Decoder.apply [0, 0, 0, 4, 0, 0, 0, 52, 0, 0, 0, 0, 0, 0, 0, 19] =
      Decoder.apply [0, 0, 0, 4, 9, 31, 9, 22, 0, 0, 0, 0, 0, 0, 0, 19] :=
  ⟨by decide, by decide, by decide,
    C10_count_independence
      [0, 0, 0, 4, 0, 0, 0, 52, 0, 0, 0, 0, 0, 0, 0, 19]
      [0, 0, 0, 4, 9, 31, 9, 22, 0, 0, 0, 0, 0, 0, 0, 19]
      (by decide) (by decide) (by decide)⟩

end Mmtf
